import Mathlib

/-!
Verification development for the HWI repository core: the Trezor chunked
transport protocol (`hwilib/devices/trezorlib/transport/protocol.py`) and the
BitBox02 PSBT translation layer (`hwilib/devices/bitbox02.py`).

Bytes are modelled as `Nat` (values 0..255 where the source produces real
bytes), byte strings as `List Nat`, Python `None`-able fields as `Option`,
and Python exceptions as `Except` error values.
-/

namespace HWI

/-! ## Chunk transport (protocol.py, class ProtocolV1)

`REPLEN = 64` is the fixed report size.  `ProtocolV1.write` builds
`buffer = b"##" + struct.pack(">HL", type, len(ser)) + ser` and emits
64-byte chunks `(b"?" + buffer[:63]).ljust(64, b"\x00")`, dropping 63 bytes
of `buffer` per chunk.  `read_first` / `read_next` invert this. -/

def REPLEN : Nat := 64

/-- Byte value of the per-report marker `'?'`. -/
def repMark : Nat := 63

/-- Byte value of the header magic `'#'`. -/
def hdrMark : Nat := 35

/-- Big-endian 2-byte encoding, as `struct.pack ">H"` produces for values
below 2^16 (the pack call raises on larger values; the model keeps the low
bytes, and every theorem restricts to the packable range). -/
def be16 (t : Nat) : List Nat := [t / 256 % 256, t % 256]

/-- Big-endian 4-byte encoding, as `struct.pack ">L"` produces for values
below 2^32. -/
def be32 (n : Nat) : List Nat :=
  [n / 16777216 % 256, n / 65536 % 256, n / 256 % 256, n % 256]

/-- Big-endian decoding used by `struct.unpack` on a slice. -/
def beDec (l : List Nat) : Nat := l.foldl (fun a b => a * 256 + b) 0

/-- `bytes.ljust(64, b"\x00")`: right-pad with zero bytes to the report
length. -/
def pad64 (l : List Nat) : List Nat := l ++ List.replicate (REPLEN - l.length) 0

/-- The serialized frame `b"##" + struct.pack(">HL", msg_type, len(ser)) + ser`
built by `ProtocolV1.write` before chunking. -/
def v1Frame (msgType : Nat) (payload : List Nat) : List Nat :=
  hdrMark :: hdrMark :: (be16 msgType ++ be32 payload.length ++ payload)

/-- Fuel-indexed form of the chunking loop; the fuel only forces structural
termination and never runs out when it starts at the buffer length, since
each step removes at least one byte. -/
def chunkifyF : Nat → List Nat → List (List Nat)
  | _, [] => []
  | 0, _ :: _ => []
  | fuel + 1, x :: xs =>
    pad64 (repMark :: (x :: xs).take 63) :: chunkifyF fuel ((x :: xs).drop 63)

/-- The chunking loop of `ProtocolV1.write`: while the buffer is nonempty,
emit `(b"?" + buffer[:63]).ljust(64)` and drop 63 bytes. -/
def chunkify (b : List Nat) : List (List Nat) := chunkifyF b.length b

theorem chunkifyF_congr : ∀ (f1 f2 : Nat) (b : List Nat),
    b.length ≤ f1 → b.length ≤ f2 → chunkifyF f1 b = chunkifyF f2 b := by
  intro f1
  induction f1 with
  | zero =>
    intro f2 b h1 _
    cases b with
    | nil => cases f2 <;> rfl
    | cons x xs => simp at h1
  | succ g1 ih =>
    intro f2 b h1 h2
    cases b with
    | nil => cases f2 <;> rfl
    | cons x xs =>
      cases f2 with
      | zero => simp at h2
      | succ g2 =>
        simp only [chunkifyF]
        congr 1
        apply ih
        · simp only [List.length_drop, List.length_cons]
          simp only [List.length_cons] at h1
          omega
        · simp only [List.length_drop, List.length_cons]
          simp only [List.length_cons] at h2
          omega

/-- The defining step of `chunkify` on a nonempty buffer. -/
theorem chunkify_cons (x : Nat) (xs : List Nat) :
    chunkify (x :: xs) =
      pad64 (repMark :: (x :: xs).take 63) :: chunkify ((x :: xs).drop 63) := by
  show chunkifyF (xs.length + 1) (x :: xs) = _
  simp only [chunkifyF]
  congr 1
  show chunkifyF xs.length _ = chunkifyF ((x :: xs).drop 63).length _
  apply chunkifyF_congr
  · simp only [List.length_drop, List.length_cons]
    omega
  · exact Nat.le_refl _

/-- `ProtocolV1.write` for a message with the given wire type tag and
serialized payload: the full list of 64-byte reports written to the handle. -/
def protWrite (msgType : Nat) (payload : List Nat) : List (List Nat) :=
  chunkify (v1Frame msgType payload)

/-- `ProtocolV1.read_first`: check the `b"?##"` magic, unpack the big-endian
`(type, length)` header from bytes 3..8, return the rest of the chunk. -/
def readFirst (c : List Nat) : Option (Nat × Nat × List Nat) :=
  if c.take 3 = [repMark, hdrMark, hdrMark] then
    some (beDec ((c.drop 3).take 2), beDec ((c.drop 5).take 4), c.drop 9)
  else none

/-- The `while len(buffer) < datalen` loop of `ProtocolV1.read`: each further
chunk must begin with `b"?"` (`read_next`) and contributes its remaining 63
bytes; on exit the buffer is truncated to the declared length (padding
stripped). An exhausted chunk stream with an unsatisfied length never occurs
for frames produced by `protWrite`; it is modelled as `none` (the Python code
would block on `read_chunk`). -/
def readLoop (datalen : Nat) : List Nat → List (List Nat) → Option (List Nat)
  | buf, [] => if datalen ≤ buf.length then some (buf.take datalen) else none
  | buf, c :: rest =>
    if datalen ≤ buf.length then some (buf.take datalen)
    else if c.take 1 = [repMark] then readLoop datalen (buf ++ c.drop 1) rest
    else none

/-- `ProtocolV1.read` down to the raw (type tag, payload) pair: `read_first`
on the first chunk, then `read_next` until the declared length is reached,
then strip padding.  The protobuf parse of the payload is outside this
layer. -/
def readMsg (chunks : List (List Nat)) : Option (Nat × List Nat) :=
  match chunks with
  | [] => none
  | c :: rest =>
    match readFirst c with
    | none => none
    | some (t, datalen, data) =>
      (readLoop datalen data rest).map (fun payload => (t, payload))

/-- Modelled from the spec: the block count predicted by the spec's stated
capacities, "first-block capacity N-3, continuation capacity N-1" with
N = 64 — one block for payloads up to 61 bytes, then one more block per
further 63 bytes.  Used only to compare the spec's prediction against
`protWrite`. -/
def specPredictedBlockCount (payloadLen : Nat) : Nat :=
  if payloadLen ≤ 61 then 1 else 1 + (payloadLen - 61 + 62) / 63

/-! ## Session counting (protocol.py, class Protocol)

`Protocol.__init__` sets `session_counter = 0`.  `begin_session` opens the
handle when the counter is 0 and increments; `end_session` closes the handle
when the counter is 1 and decrements.  The counter is a Python signed
integer, modelled as `Int`.  The physical open/close calls are recorded in a
trace. -/

inductive PhysEv where
  | opened
  | closed
  deriving DecidableEq, Repr

inductive SessCall where
  | beginS
  | endS
  deriving DecidableEq, Repr

structure SessState where
  session_counter : Int
  trace : List PhysEv
  deriving DecidableEq, Repr

/-- `Protocol.__init__`: counter starts at 0, no physical calls yet. -/
def initSessState : SessState := { session_counter := 0, trace := [] }

/-- `Protocol.begin_session`: `if self.session_counter == 0: self.handle.open()`
then `self.session_counter += 1`. -/
def beginSession (s : SessState) : SessState :=
  { session_counter := s.session_counter + 1
    trace := if s.session_counter = 0 then s.trace ++ [PhysEv.opened] else s.trace }

/-- `Protocol.end_session`: `if self.session_counter == 1: self.handle.close()`
then `self.session_counter -= 1`. -/
def endSession (s : SessState) : SessState :=
  { session_counter := s.session_counter - 1
    trace := if s.session_counter = 1 then s.trace ++ [PhysEv.closed] else s.trace }

def sessStep (s : SessState) : SessCall → SessState
  | SessCall.beginS => beginSession s
  | SessCall.endS => endSession s

def runCalls (s : SessState) : List SessCall → SessState
  | [] => s
  | c :: rest => runCalls (sessStep s c) rest

def nBegin (l : List SessCall) : Nat := l.count SessCall.beginS

def nEnd (l : List SessCall) : Nat := l.count SessCall.endS

/-- A call sequence is balanced when no prefix has more `end_session` than
`begin_session` calls (checked over every prefix length). -/
def balancedB (l : List SessCall) : Bool :=
  (List.range (l.length + 1)).all (fun k => nEnd (l.take k) ≤ nBegin (l.take k))

/-! ## BitBox02 keypath policy (bitbox02.py) -/

def HARDENED : Nat := 2147483648

def PURPOSE_P2WPKH_P2SH : Nat := 49 + HARDENED

def PURPOSE_P2WPKH : Nat := 84 + HARDENED

def PURPOSE_MULTISIG_P2WSH : Nat := 48 + HARDENED

/-- `_keypath_check_account`: `HARDENED <= bip44_account <= HARDENED + 99`. -/
def keypathCheckAccount (bip44_account : Nat) : Bool :=
  HARDENED ≤ bip44_account && bip44_account ≤ HARDENED + 99

/-- The xpub version the device is asked for (`bitbox02.btc.BTCPubRequest`). -/
inductive XpubType where
  | xpub
  | tpub
  deriving DecidableEq, Repr

/-- The script classification implied by the branch `_get_xpub` takes: the
3-element branch is singlesig (ZPUB comment marks purpose 84' as native
segwit, YPUB marks 49' as wrapped segwit), the 4-element branch is p2wsh
multisig. -/
inductive XpubClass where
  | singlesig (purpose : Nat)
  | multisig
  deriving DecidableEq, Repr

/-- `Bitbox02Client._get_xpub`: validates the keypath and chooses the xpub
type; any deviation raises `ValueError` (modelled as `Except.error ()`).
The final device call `btc_xpub` is external; the model returns the
classification and xpub type the code computed. -/
def getXpub (is_testnet : Bool) (keypath : List Nat) :
    Except Unit (XpubClass × XpubType) :=
  let expected_coin := if is_testnet then 1 + HARDENED else 0 + HARDENED
  match keypath with
  | [purpose, coin, account] =>
    if coin ≠ expected_coin ∨ ¬ keypathCheckAccount account then Except.error ()
    else if purpose = PURPOSE_P2WPKH_P2SH ∨ purpose = PURPOSE_P2WPKH then
      Except.ok (XpubClass.singlesig purpose,
        if is_testnet then XpubType.tpub else XpubType.xpub)
    else Except.error ()
  | [purpose, coin, account, script_type] =>
    if purpose ≠ PURPOSE_MULTISIG_P2WSH ∨ coin ≠ expected_coin
        ∨ ¬ keypathCheckAccount account ∨ script_type ≠ 2 + HARDENED then
      Except.error ()
    else
      Except.ok (XpubClass.multisig,
        if is_testnet then XpubType.tpub else XpubType.xpub)
  | _ => Except.error ()

/-- The HWI-level error surfaced by `get_pubkey_at_path`. -/
inductive PubkeyErr where
  | keypathError
  deriving DecidableEq, Repr

/-- `Bitbox02Client.get_pubkey_at_path` after `parse_path`: a `ValueError`
from `_get_xpub` is re-raised as `KeypathError`. -/
def getPubkeyAtPath (is_testnet : Bool) (path : List Nat) :
    Except PubkeyErr (XpubClass × XpubType) :=
  match getXpub is_testnet path with
  | Except.error () => Except.error PubkeyErr.keypathError
  | Except.ok r => Except.ok r

/-! ## Bitcoin data model (hwilib/serializations.py shapes used by sign_tx)

The `serializations` module is outside the two provided source files; its
structures are taken from how `bitbox02.py` accesses them, and its script
predicates are modelled from the spec. -/

structure COutPoint where
  hash : Nat
  n : Nat
  deriving DecidableEq, Repr

structure CTxIn where
  prevout : COutPoint
  scriptSig : List Nat
  nSequence : Nat
  deriving DecidableEq, Repr

structure CTxOut where
  nValue : Int
  scriptPubKey : List Nat
  deriving DecidableEq, Repr

structure CTransaction where
  nVersion : Int
  vin : List CTxIn
  vout : List CTxOut
  nLockTime : Nat
  sha256 : Nat
  deriving DecidableEq, Repr

/-- Modelled from the spec: `is_p2pkh` from the serializations module (not
under src/) — the standard pay-to-key-hash shape
`OP_DUP OP_HASH160 <20 bytes> OP_EQUALVERIFY OP_CHECKSIG`, whose hash is the
`[3:23]` slice the code extracts. -/
def is_p2pkh (s : List Nat) : Bool :=
  s.length = 25 && s.getD 0 0 = 118 && s.getD 1 0 = 169 && s.getD 2 0 = 20
    && s.getD 23 0 = 136 && s.getD 24 0 = 172

/-- Modelled from the spec: `is_p2sh` from the serializations module (not
under src/) — `OP_HASH160 <20 bytes> OP_EQUAL`, hash at slice `[2:22]`. -/
def is_p2sh (s : List Nat) : Bool :=
  s.length = 23 && s.getD 0 0 = 169 && s.getD 1 0 = 20 && s.getD 22 0 = 135

/-- Modelled from the spec: `is_p2wpkh` from the serializations module (not
under src/) — version-0 witness program with a 20-byte key hash. -/
def is_p2wpkh (s : List Nat) : Bool :=
  s.length = 22 && s.getD 0 0 = 0 && s.getD 1 0 = 20

/-- Modelled from the spec: `is_p2wsh` from the serializations module (not
under src/) — version-0 witness program with a 32-byte script hash. -/
def is_p2wsh (s : List Nat) : Bool :=
  s.length = 34 && s.getD 0 0 = 0 && s.getD 1 0 = 32

/-- A PSBT input as accessed by `sign_tx`.  `hd_keypaths` is the
insertion-ordered dict of pubkey to (fingerprint :: bip32 path); `sighash`
is the integer sighash field, 0 when unset (Python falsy). -/
structure PSBTInput where
  non_witness_utxo : Option CTransaction
  witness_utxo : Option CTxOut
  sighash : Nat
  hd_keypaths : List (List Nat × List Nat)
  redeem_script : List Nat
  deriving DecidableEq, Repr

structure PSBTOutput where
  hd_keypaths : List (List Nat × List Nat)
  redeem_script : List Nat
  deriving DecidableEq, Repr

structure PSBT where
  tx : CTransaction
  inputs : List PSBTInput
  outputs : List PSBTOutput
  deriving DecidableEq, Repr

/-! ## sign_tx translation (bitbox02.py, Bitbox02Client.sign_tx) -/

/-- The distinct failure conditions `sign_tx` can raise while translating,
before any request reaches the device.  The `badArg...` constructors are
`BadArgumentError`s; `indexError` is a raw Python `IndexError` from sequence
indexing; `assertionError` is the `assert bip44_account is not None`. -/
inductive SignError where
  | badArgSighash (inputIndex sighash : Nat)
  | badArgWrongHash (inputIndex : Nat)
  | badArgNoUtxo (inputIndex : Nat)
  | badArgPrevTxMissing (inputIndex : Nat)
  | badArgNoKey (inputIndex : Nat)
  | badArgMixedAccounts
  | badArgLegacyP2pkh
  | badArgInputScriptUnrecognized (inputIndex : Nat)
  | badArgOutputUnrecognized (outputIndex : Nat)
  | indexError
  | assertionError
  deriving DecidableEq, Repr

/-- Python list/sequence indexing with a nonnegative index: out of bounds
raises `IndexError`. -/
def pyIndex {α : Type} (l : List α) (n : Nat) : Except SignError α :=
  match l.get? n with
  | some x => Except.ok x
  | none => Except.error SignError.indexError

/-- `find_our_key`: scan the keypath dict in order; for each entry split off
the leading fingerprint (`seq[0]` raises `IndexError` on an empty sequence)
and return the first pubkey whose fingerprint equals the master fingerprint,
together with the rest of the path. -/
def findOurKey (master_fp : Nat) :
    List (List Nat × List Nat) → Except SignError (Option (List Nat × List Nat))
  | [] => Except.ok none
  | (pubkey, seq) :: rest =>
    match seq with
    | [] => Except.error SignError.indexError
    | fp :: keypath =>
      if fp = master_fp then Except.ok (some (pubkey, keypath))
      else findOurKey master_fp rest

/-- `bitbox02.btc.BTCScriptConfig.SimpleType` values used. -/
inductive SimpleType where
  | p2wpkh
  | p2wpkhP2sh
  deriving DecidableEq, Repr

/-- `get_simple_type`: classify the spent output's script, rejecting legacy
p2pkh and anything unrecognized (the error message interpolates the
enclosing `input_index`). -/
def getSimpleType (input_index : Nat) (output : CTxOut) (redeem_script : List Nat) :
    Except SignError SimpleType :=
  if is_p2pkh output.scriptPubKey then Except.error SignError.badArgLegacyP2pkh
  else if is_p2wpkh output.scriptPubKey then Except.ok SimpleType.p2wpkh
  else if is_p2sh output.scriptPubKey && is_p2wpkh redeem_script then
    Except.ok SimpleType.p2wpkhP2sh
  else Except.error (SignError.badArgInputScriptUnrecognized input_index)

/-- `script_config_index_map = {P2WPKH: 0, P2WPKH_P2SH: 1}`. -/
def scriptConfigIndex : SimpleType → Nat
  | SimpleType.p2wpkh => 0
  | SimpleType.p2wpkhP2sh => 1

structure PrevTxInRecord where
  prev_out_hash : Nat
  prev_out_index : Nat
  signature_script : List Nat
  sequence : Nat
  deriving DecidableEq, Repr

structure PrevTxOutRecord where
  value : Int
  pubkey_script : List Nat
  deriving DecidableEq, Repr

structure PrevTxRecord where
  version : Int
  locktime : Nat
  inputs : List PrevTxInRecord
  outputs : List PrevTxOutRecord
  deriving DecidableEq, Repr

/-- One element of the `inputs` list passed to `btc_sign`. -/
structure InputRecord where
  prev_out_hash : Nat
  prev_out_index : Nat
  prev_out_value : Int
  sequence : Nat
  keypath : List Nat
  script_config_index : Nat
  prev_tx : PrevTxRecord
  deriving DecidableEq, Repr

/-- One element of the `outputs` list passed to `btc_sign`:
`BTCOutputInternal(keypath, value, script_config_index)` for change, or
`BTCOutputExternal(output_type, output_hash, value)` otherwise. -/
inductive OutputRecord where
  | internal (keypath : List Nat) (value : Int) (script_config_index : Nat)
  | externalP2pkh (output_hash : List Nat) (value : Int)
  | externalP2wpkh (output_hash : List Nat) (value : Int)
  | externalP2sh (output_hash : List Nat) (value : Int)
  | externalP2wsh (output_hash : List Nat) (value : Int)
  deriving DecidableEq, Repr

structure ScriptConfigWithKeypath where
  simple_type : SimpleType
  keypath : List Nat
  deriving DecidableEq, Repr

/-- The `btc_sign` request assembled by `sign_tx`. -/
structure SignRequest where
  coin_testnet : Bool
  script_configs : List ScriptConfigWithKeypath
  inputs : List InputRecord
  outputs : List OutputRecord
  locktime : Nat
  version : Int
  deriving DecidableEq, Repr

structure BBConfig where
  is_testnet : Bool
  master_fp : Nat
  deriving DecidableEq, Repr

/-- The body of the per-input loop of `sign_tx` once the sighash gate has
been passed: resolve the spent output (full previous transaction required),
find the signer's key, enforce the single bip44 account, classify the
script, and build the device input record. -/
def processInputRest (master_fp input_index : Nat) (acc : Option Nat)
    (psbt_in : PSBTInput) (tx_in : CTxIn) :
    Except SignError (Nat × List Nat × InputRecord) :=
  match
    (match psbt_in.non_witness_utxo with
     | some ptx =>
       if tx_in.prevout.hash ≠ ptx.sha256 then
         Except.error (SignError.badArgWrongHash input_index)
       else
         match pyIndex ptx.vout tx_in.prevout.n with
         | Except.error e => Except.error e
         | Except.ok u => Except.ok (some u, some ptx)
     | none =>
       match psbt_in.witness_utxo with
       | some u => Except.ok (some u, (none : Option CTransaction))
       | none =>
         Except.ok ((none : Option CTxOut), (none : Option CTransaction))) with
  | Except.error e => Except.error e
  | Except.ok (utxo, prevtx) =>
    match utxo with
    | none => Except.error (SignError.badArgNoUtxo input_index)
    | some u =>
      match prevtx with
      | none => Except.error (SignError.badArgPrevTxMissing input_index)
      | some ptx =>
        match findOurKey master_fp psbt_in.hd_keypaths with
        | Except.error e => Except.error e
        | Except.ok none => Except.error (SignError.badArgNoKey input_index)
        | Except.ok (some (found_pubkey, keypath)) =>
          if found_pubkey = [] then
            Except.error (SignError.badArgNoKey input_index)
          else
            match
              (match acc with
               | none => pyIndex keypath 2
               | some a =>
                 match pyIndex keypath 2 with
                 | Except.error e => Except.error e
                 | Except.ok k2 =>
                   if a ≠ k2 then Except.error SignError.badArgMixedAccounts
                   else Except.ok a) with
            | Except.error e => Except.error e
            | Except.ok newAcc =>
              match getSimpleType input_index u psbt_in.redeem_script with
              | Except.error e => Except.error e
              | Except.ok st =>
                Except.ok (newAcc, found_pubkey,
            { prev_out_hash := tx_in.prevout.hash
              prev_out_index := tx_in.prevout.n
              prev_out_value := u.nValue
              sequence := tx_in.nSequence
              keypath := keypath
              script_config_index := scriptConfigIndex st
              prev_tx :=
                { version := ptx.nVersion
                  locktime := ptx.nLockTime
                  inputs := ptx.vin.map (fun i =>
                    { prev_out_hash := i.prevout.hash
                      prev_out_index := i.prevout.n
                      signature_script := i.scriptSig
                      sequence := i.nSequence })
                  outputs := ptx.vout.map (fun o =>
                    { value := o.nValue, pubkey_script := o.scriptPubKey }) } })

/-- The full per-input loop body of `sign_tx`, starting with the sighash
gate `if psbt_in.sighash and psbt_in.sighash != 1`. -/
def processInput (master_fp input_index : Nat) (acc : Option Nat)
    (psbt_in : PSBTInput) (tx_in : CTxIn) :
    Except SignError (Nat × List Nat × InputRecord) :=
  if psbt_in.sighash ≠ 0 ∧ psbt_in.sighash ≠ 1 then
    Except.error (SignError.badArgSighash input_index psbt_in.sighash)
  else processInputRest master_fp input_index acc psbt_in tx_in

/-- The input loop of `sign_tx` over `zip(psbt.inputs, psbt.tx.vin)`,
threading the bip44 account and accumulating the found pubkeys and device
input records in order. -/
def processInputs (master_fp : Nat) :
    Nat → Option Nat → List (PSBTInput × CTxIn) →
    Except SignError (Option Nat × List (List Nat) × List InputRecord)
  | _, acc, [] => Except.ok (acc, [], [])
  | input_index, acc, (psbt_in, tx_in) :: rest =>
    match processInput master_fp input_index acc psbt_in tx_in with
    | Except.error e => Except.error e
    | Except.ok (a, pk, rec) =>
      match processInputs master_fp (input_index + 1) (some a) rest with
      | Except.error e => Except.error e
      | Except.ok (accF, pks, recs) => Except.ok (accF, pk :: pks, rec :: recs)

/-- The non-change branch of the output loop: classify the output script
shape and extract the hash slice the code sends. -/
def externalOutput (output_index : Nat) (tx_out : CTxOut) :
    Except SignError OutputRecord :=
  if is_p2pkh tx_out.scriptPubKey then
    Except.ok (OutputRecord.externalP2pkh ((tx_out.scriptPubKey.drop 3).take 20) tx_out.nValue)
  else if is_p2wpkh tx_out.scriptPubKey then
    Except.ok (OutputRecord.externalP2wpkh (tx_out.scriptPubKey.drop 2) tx_out.nValue)
  else if is_p2sh tx_out.scriptPubKey then
    Except.ok (OutputRecord.externalP2sh ((tx_out.scriptPubKey.drop 2).take 20) tx_out.nValue)
  else if is_p2wsh tx_out.scriptPubKey then
    Except.ok (OutputRecord.externalP2wsh (tx_out.scriptPubKey.drop 2) tx_out.nValue)
  else Except.error (SignError.badArgOutputUnrecognized output_index)

/-- The body of the per-output loop of `sign_tx`:
`is_change = keypath and keypath[-2] == 1` (negative indexing raises
`IndexError` on a 1-element path), change outputs become
`BTCOutputInternal`, everything else is classified externally.
`stale_input_index` is the value the Python closure variable `input_index`
still holds from the input loop, interpolated into `get_simple_type`'s
error. -/
def processOutput (master_fp stale_input_index output_index : Nat)
    (psbt_out : PSBTOutput) (tx_out : CTxOut) : Except SignError OutputRecord :=
  match findOurKey master_fp psbt_out.hd_keypaths with
  | Except.error e => Except.error e
  | Except.ok none => externalOutput output_index tx_out
  | Except.ok (some (_, keypath)) =>
    if keypath = [] then externalOutput output_index tx_out
    else if keypath.length < 2 then Except.error SignError.indexError
    else if keypath.getD (keypath.length - 2) 0 = 1 then
      match getSimpleType stale_input_index tx_out psbt_out.redeem_script with
      | Except.error e => Except.error e
      | Except.ok st =>
        Except.ok (OutputRecord.internal keypath tx_out.nValue (scriptConfigIndex st))
    else externalOutput output_index tx_out

/-- The output loop of `sign_tx` over `zip(psbt.outputs, psbt.tx.vout)`. -/
def processOutputs (master_fp stale_input_index : Nat) :
    Nat → List (PSBTOutput × CTxOut) → Except SignError (List OutputRecord)
  | _, [] => Except.ok []
  | output_index, (psbt_out, tx_out) :: rest =>
    match processOutput master_fp stale_input_index output_index psbt_out tx_out with
    | Except.error e => Except.error e
    | Except.ok r =>
      match processOutputs master_fp stale_input_index (output_index + 1) rest with
      | Except.error e => Except.error e
      | Except.ok rs => Except.ok (r :: rs)

/-- `Bitbox02Client.sign_tx` up to the `btc_sign` device call: translate the
PSBT into the request that would be sent, or fail with the first error the
code raises.  The returned request always carries the two script-config
descriptors the code hardcodes (P2WPKH and P2WPKH_P2SH, each at its
account-level keypath). -/
def signTx (cfg : BBConfig) (psbt : PSBT) : Except SignError SignRequest :=
  match processInputs cfg.master_fp 0 none (psbt.inputs.zip psbt.tx.vin) with
  | Except.error e => Except.error e
  | Except.ok (accOpt, _pks, inRecs) =>
    match processOutputs cfg.master_fp ((psbt.inputs.zip psbt.tx.vin).length - 1) 0
        (psbt.outputs.zip psbt.tx.vout) with
    | Except.error e => Except.error e
    | Except.ok outRecs =>
      match accOpt with
      | none => Except.error SignError.assertionError
      | some bip44_account =>
        Except.ok
          { coin_testnet := cfg.is_testnet
            script_configs :=
              [ { simple_type := SimpleType.p2wpkh
                  keypath := [84 + HARDENED,
                    (if cfg.is_testnet then 1 + HARDENED else 0 + HARDENED),
                    bip44_account] }
              , { simple_type := SimpleType.p2wpkhP2sh
                  keypath := [49 + HARDENED,
                    (if cfg.is_testnet then 1 + HARDENED else 0 + HARDENED),
                    bip44_account] } ]
            inputs := inRecs
            outputs := outRecs
            locktime := psbt.tx.nLockTime
            version := psbt.tx.nVersion }

/-! ## Concrete instances used by counterexamples and witnesses -/

/-- A native-segwit output script: version 0, 20-byte push, arbitrary hash. -/
def wpkhScript : List Nat := 0 :: 20 :: List.replicate 20 7

def exUtxo : CTxOut := { nValue := 5000, scriptPubKey := wpkhScript }

def exPrevTx : CTransaction :=
  { nVersion := 1, vin := [], vout := [exUtxo], nLockTime := 0, sha256 := 99 }

def exTxIn : CTxIn :=
  { prevout := { hash := 99, n := 0 }, scriptSig := [], nSequence := 4294967294 }

/-- A keypath dict entry: pubkey `[2, 3]`, fingerprint 5, path m/84'/0'/0'/0/0. -/
def exKeyEntry : List Nat × List Nat :=
  ([2, 3], [5, 84 + HARDENED, 0 + HARDENED, 0 + HARDENED, 0, 0])

def exPsbtIn : PSBTInput :=
  { non_witness_utxo := some exPrevTx, witness_utxo := none, sighash := 0
    hd_keypaths := [exKeyEntry], redeem_script := [] }

/-- The same input carrying only the spent output (`witness_utxo`), no full
previous transaction. -/
def exPsbtInWitOnly : PSBTInput :=
  { non_witness_utxo := none, witness_utxo := some exUtxo, sighash := 0
    hd_keypaths := [exKeyEntry], redeem_script := [] }

def exTxOut : CTxOut := { nValue := 4000, scriptPubKey := wpkhScript }

def exPsbtOutPlain : PSBTOutput := { hd_keypaths := [], redeem_script := [] }

def exTx : CTransaction :=
  { nVersion := 2, vin := [exTxIn], vout := [exTxOut], nLockTime := 0, sha256 := 0 }

def exPsbt : PSBT := { tx := exTx, inputs := [exPsbtIn], outputs := [exPsbtOutPlain] }

def exPsbtWitOnly : PSBT :=
  { tx := exTx, inputs := [exPsbtInWitOnly], outputs := [exPsbtOutPlain] }

/-- A change-flagged output association whose account (5') differs from the
inputs' account (0'): pubkey `[9]`, fingerprint 5, path m/84'/0'/5'/1/0. -/
def exKeyEntryOtherAccount : List Nat × List Nat :=
  ([9], [5, 84 + HARDENED, 0 + HARDENED, 5 + HARDENED, 1, 0])

def exPsbtOutOtherAccount : PSBTOutput :=
  { hd_keypaths := [exKeyEntryOtherAccount], redeem_script := [] }

def exPsbtChangeOtherAccount : PSBT :=
  { tx := exTx, inputs := [exPsbtIn], outputs := [exPsbtOutOtherAccount] }

def exCfg : BBConfig := { is_testnet := false, master_fp := 5 }

/-- The request `signTx exCfg exPsbt` evaluates to. -/
def exReqC2 : SignRequest :=
  { coin_testnet := false
    script_configs :=
      [ { simple_type := SimpleType.p2wpkh
          keypath := [84 + HARDENED, 0 + HARDENED, 0 + HARDENED] }
      , { simple_type := SimpleType.p2wpkhP2sh
          keypath := [49 + HARDENED, 0 + HARDENED, 0 + HARDENED] } ]
    inputs :=
      [ { prev_out_hash := 99
          prev_out_index := 0
          prev_out_value := 5000
          sequence := 4294967294
          keypath := [84 + HARDENED, 0 + HARDENED, 0 + HARDENED, 0, 0]
          script_config_index := 0
          prev_tx :=
            { version := 1
              locktime := 0
              inputs := []
              outputs := [{ value := 5000, pubkey_script := wpkhScript }] } } ]
    outputs := [OutputRecord.externalP2wpkh (List.replicate 20 7) 4000]
    locktime := 0
    version := 2 }

/-- The valid example input with an explicit non-ALL sighash value. -/
def exPsbtInSighash3 : PSBTInput := { exPsbtIn with sighash := 3 }

/-- An input whose matched path (after the fingerprint) has only 2 elements,
shorter than the 3 needed to read the account component at index 2. -/
def exPsbtInShortPath : PSBTInput := { exPsbtIn with hd_keypaths := [([2], [5, 10, 11])] }

/-- An output whose matched path (after the fingerprint) has exactly 1
element, so reading the change flag at index -2 is out of bounds. -/
def exPsbtOutShortPath : PSBTOutput := { hd_keypaths := [([2], [5, 1])], redeem_script := [] }

/-! ## Helper lemmas -/

theorem runCalls_counter (l : List SessCall) : ∀ s : SessState,
    (runCalls s l).session_counter =
      s.session_counter + (nBegin l : Int) - (nEnd l : Int) := by
  induction l with
  | nil => intro s; simp [runCalls, nBegin, nEnd]
  | cons c rest ih =>
    intro s
    cases c with
    | beginS =>
      have h := ih (beginSession s)
      simp only [runCalls, sessStep] at *
      rw [h]
      simp [beginSession, nBegin, nEnd, List.count_cons]
      ring
    | endS =>
      have h := ih (endSession s)
      simp only [runCalls, sessStep] at *
      rw [h]
      simp [endSession, nBegin, nEnd, List.count_cons]
      ring

theorem balancedB_prefix {l : List SessCall} (h : balancedB l = true) (k : Nat) :
    nEnd (l.take k) ≤ nBegin (l.take k) := by
  have hall := List.all_eq_true.mp h
  by_cases hk : k ≤ l.length
  · have hm : k ∈ List.range (l.length + 1) := List.mem_range.mpr (by omega)
    simpa using hall k hm
  · have h1 : l.take k = l := List.take_of_length_le (by omega)
    have hm : l.length ∈ List.range (l.length + 1) := List.mem_range.mpr (by omega)
    have h2 := hall l.length hm
    rw [h1]
    simpa [List.take_length] using h2

theorem v1Frame_length (msgType : Nat) (payload : List Nat) :
    (v1Frame msgType payload).length = payload.length + 8 := by
  simp [v1Frame, be16, be32]

theorem pad64_length {l : List Nat} (h : l.length ≤ 64) : (pad64 l).length = 64 := by
  simp [pad64, REPLEN]
  omega

theorem chunkify_length_aux : ∀ (n : Nat) (b : List Nat), b.length ≤ n →
    (chunkify b).length = (b.length + 62) / 63 := by
  intro n
  induction n with
  | zero =>
    intro b hb
    cases b with
    | nil => rfl
    | cons x xs => simp at hb
  | succ m ih =>
    intro b hb
    cases b with
    | nil => rfl
    | cons x xs =>
      rw [chunkify_cons]
      have hd : ((x :: xs).drop 63).length = xs.length + 1 - 63 := by
        simp [List.length_drop]
      have hrec := ih ((x :: xs).drop 63)
        (by rw [hd]; simp only [List.length_cons] at hb; omega)
      simp only [List.length_cons, hrec, hd]
      omega

theorem chunkify_length (b : List Nat) :
    (chunkify b).length = (b.length + 62) / 63 :=
  chunkify_length_aux b.length b (Nat.le_refl _)

theorem chunkify_chunk_len : ∀ (n : Nat) (b : List Nat), b.length ≤ n →
    ∀ c ∈ chunkify b, c.length = 64 := by
  intro n
  induction n with
  | zero =>
    intro b hb c hc
    cases b with
    | nil => simp [chunkify, chunkifyF] at hc
    | cons x xs => simp at hb
  | succ m ih =>
    intro b hb c hc
    cases b with
    | nil => simp [chunkify, chunkifyF] at hc
    | cons x xs =>
      rw [chunkify_cons] at hc
      rcases List.mem_cons.mp hc with h | h
      · subst h
        apply pad64_length
        simp only [List.length_cons, List.length_take]
        omega
      · refine ih ((x :: xs).drop 63) ?_ c h
        simp only [List.length_drop, List.length_cons]
        simp only [List.length_cons] at hb
        omega

theorem getLastD_cons_of_ne_nil {α : Type} (a d : α) {l : List α} (h : l ≠ []) :
    (a :: l).getLastD d = l.getLastD d := by
  cases l with
  | nil => exact absurd rfl h
  | cons y ys => rfl

theorem chunkify_ne_nil (x : Nat) (xs : List Nat) : chunkify (x :: xs) ≠ [] := by
  rw [chunkify_cons]
  exact List.cons_ne_nil _ _

theorem chunkify_getLastD_aux : ∀ (n : Nat) (b : List Nat), b.length ≤ n → b ≠ [] →
    (chunkify b).getLastD [] =
      (repMark :: b.drop (63 * ((b.length + 62) / 63 - 1)))
        ++ List.replicate (63 - (b.length - 63 * ((b.length + 62) / 63 - 1))) 0 := by
  intro n
  induction n with
  | zero =>
    intro b hb hne
    cases b with
    | nil => exact absurd rfl hne
    | cons x xs => simp at hb
  | succ m ih =>
    intro b hb hne
    cases b with
    | nil => exact absurd rfl hne
    | cons x xs =>
      rw [chunkify_cons]
      by_cases hlen : xs.length + 1 ≤ 63
      · have hdrop : (x :: xs).drop 63 = [] :=
          List.drop_eq_nil_of_le (by simp only [List.length_cons]; omega)
        rw [hdrop]
        show pad64 (repMark :: (x :: xs).take 63) = _
        have htake : (x :: xs).take 63 = x :: xs :=
          List.take_of_length_le (by simp only [List.length_cons]; omega)
        rw [htake]
        have hK : 63 * (((x :: xs).length + 62) / 63 - 1) = 0 := by
          simp only [List.length_cons]
          omega
        rw [hK, List.drop_zero]
        simp only [pad64, REPLEN, List.length_cons]
        have hcount : 64 - (xs.length + 1 + 1) = 63 - (xs.length + 1 - 0) := by omega
        rw [hcount]
      · have hne2 : (x :: xs).drop 63 ≠ [] := by
          intro h
          have hl := congrArg List.length h
          simp only [List.length_drop, List.length_cons, List.length_nil] at hl
          omega
        have hchne : chunkify ((x :: xs).drop 63) ≠ [] := by
          cases hd : (x :: xs).drop 63 with
          | nil => exact absurd hd hne2
          | cons y ys => exact chunkify_ne_nil y ys
        rw [getLastD_cons_of_ne_nil _ _ hchne]
        have hrec := ih ((x :: xs).drop 63)
          (by
            simp only [List.length_drop, List.length_cons]
            simp only [List.length_cons] at hb
            omega)
          hne2
        rw [hrec, List.drop_drop]
        have e1 : 63 + 63 * ((((x :: xs).drop 63).length + 62) / 63 - 1)
            = 63 * (((x :: xs).length + 62) / 63 - 1) := by
          simp only [List.length_drop, List.length_cons]
          omega
        have e2 : 63 - (((x :: xs).drop 63).length
              - 63 * ((((x :: xs).drop 63).length + 62) / 63 - 1))
            = 63 - ((x :: xs).length - 63 * (((x :: xs).length + 62) / 63 - 1)) := by
          simp only [List.length_drop, List.length_cons]
          omega
        rw [e1, e2]

theorem pyIndex_error {α : Type} {l : List α} {n : Nat} {e : SignError}
    (h : pyIndex l n = Except.error e) : e = SignError.indexError := by
  unfold pyIndex at h
  cases hg : l.get? n with
  | none =>
    rw [hg] at h
    exact (Except.error.inj h).symm
  | some x =>
    rw [hg] at h
    exact absurd h (by simp)

theorem findOurKey_error : ∀ (l : List (List Nat × List Nat)) (fp : Nat)
    (e : SignError), findOurKey fp l = Except.error e → e = SignError.indexError := by
  intro l
  induction l with
  | nil =>
    intro fp e h
    simp [findOurKey] at h
  | cons entry rest ih =>
    intro fp e h
    obtain ⟨pk, seq⟩ := entry
    cases seq with
    | nil =>
      simp only [findOurKey] at h
      exact (Except.error.inj h).symm
    | cons f kp =>
      simp only [findOurKey] at h
      by_cases hf : f = fp
      · rw [if_pos hf] at h
        exact absurd h (by simp)
      · rw [if_neg hf] at h
        exact ih fp e h

theorem getSimpleType_error {idx : Nat} {out : CTxOut} {rs : List Nat} {e : SignError}
    (h : getSimpleType idx out rs = Except.error e) :
    e = SignError.badArgLegacyP2pkh
      ∨ e = SignError.badArgInputScriptUnrecognized idx := by
  unfold getSimpleType at h
  split_ifs at h
  all_goals
    first
      | exact Or.inl (Except.error.inj h).symm
      | exact Or.inr (Except.error.inj h).symm

theorem processInput_sighash_pass {mfp idx : Nat} {acc : Option Nat}
    {pin : PSBTInput} {txin : CTxIn}
    (hs : pin.sighash = 0 ∨ pin.sighash = 1) :
    processInput mfp idx acc pin txin = processInputRest mfp idx acc pin txin := by
  unfold processInput
  rcases hs with h | h <;> rw [h] <;> simp

theorem is_p2pkh_length {s : List Nat} (h : is_p2pkh s = true) : s.length = 25 := by
  simp [is_p2pkh] at h
  exact h.1.1.1.1.1

theorem is_p2wpkh_length {s : List Nat} (h : is_p2wpkh s = true) : s.length = 22 := by
  simp [is_p2wpkh] at h
  exact h.1.1

theorem is_p2sh_length {s : List Nat} (h : is_p2sh s = true) : s.length = 23 := by
  simp [is_p2sh] at h
  exact h.1.1.1

theorem is_p2wsh_length {s : List Nat} (h : is_p2wsh s = true) : s.length = 34 := by
  simp [is_p2wsh] at h
  exact h.1.1

theorem pyIndex_ok {α : Type} {l : List α} {n : Nat} {v : α}
    (h : pyIndex l n = Except.ok v) : l.get? n = some v := by
  unfold pyIndex at h
  cases hg : l.get? n with
  | none =>
    rw [hg] at h
    exact absurd h (by simp)
  | some x =>
    rw [hg] at h
    have hx := Except.ok.inj h
    subst hx
    rfl

theorem getD_of_get? {α : Type} {l : List α} {n : Nat} {v d : α}
    (h : l.get? n = some v) : l.getD n d = v := by
  simp [List.getD_eq_getElem?_getD, ← List.get?_eq_getElem?, h]

/-- What a successful per-input translation guarantees about the bip44
account: the produced record's keypath has the returned account at index 2,
and a previously fixed account is passed through unchanged. -/
theorem processInput_ok_spec {mfp idx : Nat} {acc : Option Nat} {pin : PSBTInput}
    {txin : CTxIn} {a1 : Nat} {pk : List Nat} {rec : InputRecord}
    (h : processInput mfp idx acc pin txin = Except.ok (a1, pk, rec)) :
    rec.keypath.getD 2 0 = a1 ∧ ∀ a, acc = some a → a1 = a := by
  unfold processInput at h
  by_cases hsg : pin.sighash ≠ 0 ∧ pin.sighash ≠ 1
  · rw [if_pos hsg] at h
    exact absurd h (by simp)
  · rw [if_neg hsg] at h
    unfold processInputRest at h
    cases hnwu : pin.non_witness_utxo with
    | none =>
      simp only [hnwu] at h
      cases hwu : pin.witness_utxo with
      | none =>
        simp only [hwu] at h
        exact absurd h (by simp)
      | some u =>
        simp only [hwu] at h
        exact absurd h (by simp)
    | some ptx =>
      simp only [hnwu] at h
      by_cases hh : txin.prevout.hash ≠ ptx.sha256
      · rw [if_pos hh] at h
        exact absurd h (by simp)
      · rw [if_neg hh] at h
        cases hpi : pyIndex ptx.vout txin.prevout.n with
        | error e =>
          simp only [hpi] at h
          exact absurd h (by simp)
        | ok u =>
          simp only [hpi] at h
          cases hfind : findOurKey mfp pin.hd_keypaths with
          | error e =>
            simp only [hfind] at h
            exact absurd h (by simp)
          | ok found =>
            cases found with
            | none =>
              simp only [hfind] at h
              exact absurd h (by simp)
            | some pkkp =>
              obtain ⟨pk2, kp⟩ := pkkp
              simp only [hfind] at h
              by_cases hpk : pk2 = []
              · rw [if_pos hpk] at h
                exact absurd h (by simp)
              · rw [if_neg hpk] at h
                cases acc with
                | none =>
                  cases hpy2 : pyIndex kp 2 with
                  | error e =>
                    simp only [hpy2] at h
                    exact absurd h (by simp)
                  | ok k2 =>
                    simp only [hpy2] at h
                    cases hst : getSimpleType idx u pin.redeem_script with
                    | error e =>
                      simp only [hst] at h
                      exact absurd h (by simp)
                    | ok st =>
                      simp only [hst] at h
                      have hinj := Except.ok.inj h
                      have e1 : k2 = a1 := congrArg Prod.fst hinj
                      have e3 : rec.keypath = kp :=
                        (congrArg (fun q => q.2.2.keypath) hinj).symm
                      refine ⟨?_, ?_⟩
                      · rw [e3, getD_of_get? (pyIndex_ok hpy2), e1]
                      · intro a ha
                        exact absurd ha (by simp)
                | some a0 =>
                  cases hpy2 : pyIndex kp 2 with
                  | error e =>
                    simp only [hpy2] at h
                    exact absurd h (by simp)
                  | ok k2 =>
                    simp only [hpy2] at h
                    by_cases hne : a0 ≠ k2
                    · rw [if_pos hne] at h
                      exact absurd h (by simp)
                    · rw [if_neg hne] at h
                      cases hst : getSimpleType idx u pin.redeem_script with
                      | error e =>
                        simp only [hst] at h
                        exact absurd h (by simp)
                      | ok st =>
                        simp only [hst] at h
                        have hinj := Except.ok.inj h
                        have e1 : a0 = a1 := congrArg Prod.fst hinj
                        have e3 : rec.keypath = kp :=
                          (congrArg (fun q => q.2.2.keypath) hinj).symm
                        have hk2 : a0 = k2 := by
                          by_contra hc
                          exact hne hc
                        refine ⟨?_, ?_⟩
                        · rw [e3, getD_of_get? (pyIndex_ok hpy2), ← hk2, e1]
                        · intro a ha
                          have := Option.some.inj ha
                          rw [← this, e1]

/-- A successful run of the input loop threads a single bip44 account: a
fixed account is preserved, and every produced record carries the final
account at keypath index 2. -/
theorem processInputs_spec : ∀ (pairs : List (PSBTInput × CTxIn)) (mfp idx : Nat)
    (acc accO : Option Nat) (pks : List (List Nat)) (recs : List InputRecord),
    processInputs mfp idx acc pairs = Except.ok (accO, pks, recs) →
    (∀ a, acc = some a → accO = some a)
    ∧ (∀ r ∈ recs, accO = some (r.keypath.getD 2 0)) := by
  intro pairs
  induction pairs with
  | nil =>
    intro mfp idx acc accO pks recs h
    simp only [processInputs] at h
    have hinj := Except.ok.inj h
    have hA : acc = accO := congrArg Prod.fst hinj
    have hR : ([] : List InputRecord) = recs :=
      congrArg (fun q => q.2.2) hinj
    refine ⟨?_, ?_⟩
    · intro a ha
      rw [← hA, ha]
    · intro r hr
      rw [← hR] at hr
      simp at hr
  | cons pair rest ih =>
    intro mfp idx acc accO pks recs h
    obtain ⟨pin, txin⟩ := pair
    simp only [processInputs] at h
    cases h1 : processInput mfp idx acc pin txin with
    | error e =>
      simp only [h1] at h
      exact absurd h (by simp)
    | ok v =>
      obtain ⟨a1, pk1, rec1⟩ := v
      simp only [h1] at h
      cases h2 : processInputs mfp (idx + 1) (some a1) rest with
      | error e =>
        simp only [h2] at h
        exact absurd h (by simp)
      | ok w =>
        obtain ⟨accF, pksR, recsR⟩ := w
        simp only [h2] at h
        have hinj := Except.ok.inj h
        have hA : accF = accO := congrArg Prod.fst hinj
        have hR : rec1 :: recsR = recs := congrArg (fun q => q.2.2) hinj
        obtain ⟨ihs, ihr⟩ := ih mfp (idx + 1) (some a1) accF pksR recsR h2
        obtain ⟨hspec1, hspec2⟩ := processInput_ok_spec h1
        refine ⟨?_, ?_⟩
        · intro a ha
          rw [← hA]
          have hacc1 := ihs a1 rfl
          rw [hspec2 a ha] at hacc1
          exact hacc1
        · intro r hr
          rw [← hR] at hr
          rcases List.mem_cons.mp hr with hEq | hMem
          · subst hEq
            rw [hspec1, ← hA]
            exact ihs a1 rfl
          · rw [← hA]
            exact ihr r hMem

/-- Once the sighash gate has been passed, no later step of the per-input
translation can raise the sighash condition. -/
theorem processInputRest_no_sighash (mfp idx : Nat) (acc : Option Nat)
    (pin : PSBTInput) (txin : CTxIn) (j s : Nat) :
    processInputRest mfp idx acc pin txin
      ≠ Except.error (SignError.badArgSighash j s) := by
  intro h
  unfold processInputRest at h
  cases hnwu : pin.non_witness_utxo with
  | none =>
    simp only [hnwu] at h
    cases hwu : pin.witness_utxo with
    | none =>
      simp only [hwu] at h
      exact absurd h (by simp)
    | some u =>
      simp only [hwu] at h
      exact absurd h (by simp)
  | some ptx =>
    simp only [hnwu] at h
    by_cases hh : txin.prevout.hash ≠ ptx.sha256
    · rw [if_pos hh] at h
      exact absurd h (by simp)
    · rw [if_neg hh] at h
      cases hpi : pyIndex ptx.vout txin.prevout.n with
      | error e =>
        simp only [hpi] at h
        have he := pyIndex_error hpi
        subst he
        exact absurd h (by simp)
      | ok u =>
        simp only [hpi] at h
        cases hfind : findOurKey mfp pin.hd_keypaths with
        | error e =>
          simp only [hfind] at h
          have he := findOurKey_error _ _ _ hfind
          subst he
          exact absurd h (by simp)
        | ok found =>
          cases found with
          | none =>
            simp only [hfind] at h
            exact absurd h (by simp)
          | some pkkp =>
            obtain ⟨pk2, kp⟩ := pkkp
            simp only [hfind] at h
            by_cases hpk : pk2 = []
            · rw [if_pos hpk] at h
              exact absurd h (by simp)
            · rw [if_neg hpk] at h
              cases hacc : (match acc with
                  | none => pyIndex kp 2
                  | some a =>
                    match pyIndex kp 2 with
                    | Except.error e => Except.error e
                    | Except.ok k2 =>
                      if a ≠ k2 then Except.error SignError.badArgMixedAccounts
                      else Except.ok a) with
              | error e =>
                simp only [hacc] at h
                have he : e = SignError.indexError
                    ∨ e = SignError.badArgMixedAccounts := by
                  cases acc with
                  | none => exact Or.inl (pyIndex_error hacc)
                  | some a0 =>
                    cases hpy2 : pyIndex kp 2 with
                    | error e2 =>
                      simp only [hpy2] at hacc
                      have he2 := pyIndex_error hpy2
                      subst he2
                      exact Or.inl (Except.error.inj hacc).symm
                    | ok k2 =>
                      simp only [hpy2] at hacc
                      by_cases hne : a0 ≠ k2
                      · rw [if_pos hne] at hacc
                        exact Or.inr (Except.error.inj hacc).symm
                      · rw [if_neg hne] at hacc
                        exact absurd hacc (by simp)
                rcases he with he | he
                · subst he
                  exact absurd h (by simp)
                · subst he
                  exact absurd h (by simp)
              | ok newAcc =>
                simp only [hacc] at h
                cases hst : getSimpleType idx u pin.redeem_script with
                | error e =>
                  simp only [hst] at h
                  rcases getSimpleType_error hst with he | he
                  · subst he
                    exact absurd h (by simp)
                  · subst he
                    exact absurd h (by simp)
                | ok st =>
                  simp only [hst] at h
                  exact absurd h (by simp)

/-- A successful run of the input loop means every input pair passed its
per-input translation step. -/
theorem processInputs_ok_mem : ∀ (pairs : List (PSBTInput × CTxIn)) (mfp idx : Nat)
    (acc : Option Nat) (res : Option Nat × List (List Nat) × List InputRecord),
    processInputs mfp idx acc pairs = Except.ok res →
    ∀ pin txin, (pin, txin) ∈ pairs →
      ∃ j a r, processInput mfp j a pin txin = Except.ok r := by
  intro pairs
  induction pairs with
  | nil =>
    intro mfp idx acc res _ pin txin hmem
    simp at hmem
  | cons pair rest ih =>
    intro mfp idx acc res h pin txin hmem
    obtain ⟨pin0, txin0⟩ := pair
    simp only [processInputs] at h
    cases h1 : processInput mfp idx acc pin0 txin0 with
    | error e =>
      simp only [h1] at h
      exact absurd h (by simp)
    | ok v =>
      obtain ⟨a1, pk1, rec1⟩ := v
      simp only [h1] at h
      cases h2 : processInputs mfp (idx + 1) (some a1) rest with
      | error e =>
        simp only [h2] at h
        exact absurd h (by simp)
      | ok w =>
        rcases List.mem_cons.mp hmem with hEq | hMem
        · have hp : pin = pin0 ∧ txin = txin0 := by
            have h1e := congrArg Prod.fst hEq
            have h2e := congrArg Prod.snd hEq
            exact ⟨h1e, h2e⟩
          rw [hp.1, hp.2]
          exact ⟨idx, acc, (a1, pk1, rec1), h1⟩
        · exact ih mfp (idx + 1) (some a1) w h2 pin txin hMem

theorem beDec_be16 {t : Nat} (ht : t < 65536) : beDec (be16 t) = t := by
  simp [beDec, be16]
  omega

theorem beDec_be32 {n : Nat} (hn : n < 4294967296) : beDec (be32 n) = n := by
  simp [beDec, be32]
  omega

theorem v1Frame_assoc (t : Nat) (p : List Nat) :
    v1Frame t p = ([hdrMark, hdrMark] ++ (be16 t ++ be32 p.length)) ++ p := by
  simp [v1Frame]

theorem v1Frame_drop63 (t : Nat) (p : List Nat) :
    (v1Frame t p).drop 63 = p.drop 55 := by
  rw [v1Frame_assoc, List.drop_append_eq_append_drop]
  have hlen : ([hdrMark, hdrMark] ++ (be16 t ++ be32 p.length)).length = 8 := by
    simp [be16, be32]
  rw [List.drop_eq_nil_of_le (by rw [hlen]; omega), hlen]
  simp

theorem readFirst_write (t : Nat) (p : List Nat) (ht : t < 65536)
    (hp : p.length < 4294967296) :
    readFirst (pad64 (repMark :: (v1Frame t p).take 63))
      = some (t, p.length, p.take 55 ++ List.replicate (55 - min 55 p.length) 0) := by
  have hAlen : (be16 t).length = 2 := by simp [be16]
  have hBlen : (be32 p.length).length = 4 := by simp [be32]
  have htake : (v1Frame t p).take 63
      = hdrMark :: hdrMark :: ((be16 t ++ be32 p.length) ++ p.take 55) := by
    show (hdrMark :: hdrMark :: ((be16 t ++ be32 p.length) ++ p)).take 63 = _
    have h2 : (hdrMark :: hdrMark :: ((be16 t ++ be32 p.length) ++ p)).take 63
        = hdrMark :: hdrMark :: (((be16 t ++ be32 p.length) ++ p).take 61) := rfl
    rw [h2, List.take_append_eq_append_take,
      List.take_of_length_le (by simp [hAlen, hBlen]),
      show ((be16 t ++ be32 p.length).length) = 6 by simp [hAlen, hBlen]]
  rw [htake]
  have hc0 : pad64 (repMark :: hdrMark :: hdrMark :: ((be16 t ++ be32 p.length) ++ p.take 55))
      = repMark :: hdrMark :: hdrMark ::
          (be16 t ++ (be32 p.length ++ (p.take 55
            ++ List.replicate (55 - min 55 p.length) 0))) := by
    simp only [pad64, REPLEN, List.cons_append, List.append_assoc, List.length_cons,
      List.length_append, hAlen, hBlen, List.length_take]
    have e : 64 - (2 + (4 + min 55 p.length) + 1 + 1 + 1) = 55 - min 55 p.length := by
      omega
    rw [e]
  rw [hc0]
  show readFirst (repMark :: hdrMark :: hdrMark :: _) = _
  rw [readFirst]
  rw [if_pos (by rfl)]
  have hd3 : (repMark :: hdrMark :: hdrMark ::
      (be16 t ++ (be32 p.length ++ (p.take 55
        ++ List.replicate (55 - min 55 p.length) 0)))).drop 3
      = be16 t ++ (be32 p.length ++ (p.take 55
        ++ List.replicate (55 - min 55 p.length) 0)) := rfl
  have hd5 : (repMark :: hdrMark :: hdrMark ::
      (be16 t ++ (be32 p.length ++ (p.take 55
        ++ List.replicate (55 - min 55 p.length) 0)))).drop 5
      = be32 p.length ++ (p.take 55 ++ List.replicate (55 - min 55 p.length) 0) := by
    have : (repMark :: hdrMark :: hdrMark ::
        (be16 t ++ (be32 p.length ++ (p.take 55
          ++ List.replicate (55 - min 55 p.length) 0)))).drop 5
        = ((repMark :: hdrMark :: hdrMark ::
            (be16 t ++ (be32 p.length ++ (p.take 55
              ++ List.replicate (55 - min 55 p.length) 0)))).drop 3).drop 2 := by
      rw [List.drop_drop]
    rw [this, hd3, List.drop_append_eq_append_drop,
      List.drop_eq_nil_of_le (by rw [hAlen]), hAlen]
    simp
  have hd9 : (repMark :: hdrMark :: hdrMark ::
      (be16 t ++ (be32 p.length ++ (p.take 55
        ++ List.replicate (55 - min 55 p.length) 0)))).drop 9
      = p.take 55 ++ List.replicate (55 - min 55 p.length) 0 := by
    have : (repMark :: hdrMark :: hdrMark ::
        (be16 t ++ (be32 p.length ++ (p.take 55
          ++ List.replicate (55 - min 55 p.length) 0)))).drop 9
        = ((repMark :: hdrMark :: hdrMark ::
            (be16 t ++ (be32 p.length ++ (p.take 55
              ++ List.replicate (55 - min 55 p.length) 0)))).drop 5).drop 4 := by
      rw [List.drop_drop]
    rw [this, hd5, List.drop_append_eq_append_drop,
      List.drop_eq_nil_of_le (by rw [hBlen]), hBlen]
    simp
  rw [hd3, hd5, hd9]
  have ht2 : (be16 t ++ (be32 p.length ++ (p.take 55
      ++ List.replicate (55 - min 55 p.length) 0))).take 2 = be16 t := by
    rw [List.take_append_eq_append_take, List.take_of_length_le (by rw [hAlen]), hAlen]
    simp
  have ht4 : (be32 p.length ++ (p.take 55
      ++ List.replicate (55 - min 55 p.length) 0)).take 4 = be32 p.length := by
    rw [List.take_append_eq_append_take, List.take_of_length_le (by rw [hBlen]), hBlen]
    simp
  rw [ht2, ht4, beDec_be16 ht, beDec_be32 hp]

theorem readLoop_done (k : Nat) (p : List Nat) (hLk : p.length ≤ k) :
    readLoop p.length (p.take k ++ List.replicate (k - min k p.length) 0)
      (chunkify (p.drop k)) = some p := by
  have hdrop : p.drop k = [] := List.drop_eq_nil_of_le hLk
  rw [hdrop]
  show readLoop p.length _ [] = some p
  have hbuf : (p.take k ++ List.replicate (k - min k p.length) 0).length = k := by
    simp only [List.length_append, List.length_take, List.length_replicate]
    omega
  rw [readLoop, if_pos (by rw [hbuf]; exact hLk)]
  have htk : p.take k = p := List.take_of_length_le hLk
  rw [htk, List.take_append_eq_append_take, List.take_length, Nat.sub_self,
    List.take_zero, List.append_nil]

theorem readLoop_chunkify : ∀ (n k : Nat) (p : List Nat), p.length - k ≤ n → 0 < k →
    readLoop p.length (p.take k ++ List.replicate (k - min k p.length) 0)
      (chunkify (p.drop k)) = some p := by
  intro n
  induction n with
  | zero =>
    intro k p hn _
    exact readLoop_done k p (by omega)
  | succ m ih =>
    intro k p hn hk
    by_cases hLk : p.length ≤ k
    · exact readLoop_done k p hLk
    · have hmin : min k p.length = k := by omega
      have hbufeq : p.take k ++ List.replicate (k - min k p.length) 0 = p.take k := by
        rw [hmin, Nat.sub_self]
        simp
      rw [hbufeq]
      obtain ⟨y, ys, hd⟩ : ∃ y ys, p.drop k = y :: ys := by
        cases hdrop : p.drop k with
        | nil =>
          exfalso
          have hl := congrArg List.length hdrop
          simp only [List.length_drop, List.length_nil] at hl
          omega
        | cons y ys => exact ⟨y, ys, rfl⟩
      rw [hd, chunkify_cons]
      have hbl : (p.take k).length = k := by
        simp only [List.length_take]
        omega
      rw [readLoop, if_neg (by rw [hbl]; omega),
        if_pos (by rfl : (pad64 (repMark :: (y :: ys).take 63)).take 1 = [repMark])]
      have hdrop1 : (pad64 (repMark :: (y :: ys).take 63)).drop 1
          = (y :: ys).take 63
            ++ List.replicate (64 - (((y :: ys).take 63).length + 1)) 0 := by
        simp only [pad64, REPLEN, List.cons_append, List.length_cons]
        rfl
      rw [hdrop1, ← hd]
      have hnext : p.take k ++ ((p.drop k).take 63
          ++ List.replicate (64 - (((p.drop k).take 63).length + 1)) 0)
          = p.take (k + 63)
            ++ List.replicate ((k + 63) - min (k + 63) p.length) 0 := by
        rw [← List.append_assoc, ← List.take_add]
        have e : 64 - (((p.drop k).take 63).length + 1)
            = (k + 63) - min (k + 63) p.length := by
          simp only [List.length_take, List.length_drop]
          omega
        rw [e]
      rw [hnext, List.drop_drop]
      exact ih (k + 63) p (by omega) (by omega)

/-! ## Claim theorems -/

/-- C6: when the matched signer-key paths of a PSBT's inputs do not all
share one account component, sign_tx never produces a request (every
successful translation has one account at index 2 of every input record's
keypath), and the failure occurs at the first divergence: a per-input step
whose matched path's account differs from the account fixed by the earlier
inputs raises the mixed-accounts condition, with no request built. -/
theorem claim_C6 :
    (∀ cfg psbt req, signTx cfg psbt = Except.ok req →
      ∀ r1 ∈ req.inputs, ∀ r2 ∈ req.inputs,
        r1.keypath.getD 2 0 = r2.keypath.getD 2 0)
    ∧ (∀ mfp idx a pin txin ptx u pk kp b,
        pin.sighash = 0 →
        pin.non_witness_utxo = some ptx →
        txin.prevout.hash = ptx.sha256 →
        ptx.vout.get? txin.prevout.n = some u →
        findOurKey mfp pin.hd_keypaths = Except.ok (some (pk, kp)) →
        pk ≠ [] →
        kp.get? 2 = some b → b ≠ a →
        processInput mfp idx (some a) pin txin
          = Except.error SignError.badArgMixedAccounts) := by
  constructor
  · intro cfg psbt req h r1 h1 r2 h2
    unfold signTx at h
    cases hin : processInputs cfg.master_fp 0 none (psbt.inputs.zip psbt.tx.vin) with
    | error e =>
      simp only [hin] at h
      exact absurd h (by simp)
    | ok v =>
      obtain ⟨accOpt, pks, inRecs⟩ := v
      simp only [hin] at h
      cases hout : processOutputs cfg.master_fp
          ((psbt.inputs.zip psbt.tx.vin).length - 1) 0
          (psbt.outputs.zip psbt.tx.vout) with
      | error e =>
        simp only [hout] at h
        exact absurd h (by simp)
      | ok outRecs =>
        simp only [hout] at h
        cases accOpt with
        | none => simp at h
        | some account =>
          simp only [Except.ok.injEq] at h
          have hreq : req.inputs = inRecs := by
            rw [← h]
          obtain ⟨_, hall⟩ := processInputs_spec _ _ _ _ _ _ _ hin
          rw [hreq] at h1 h2
          have e1 := hall r1 h1
          have e2 := hall r2 h2
          rw [e1] at e2
          exact Option.some.inj e2
  · intro mfp idx a pin txin ptx u pk kp b hs0 h1 hh hg hfind hpk hkp hb
    rw [processInput_sighash_pass (Or.inl hs0)]
    have hpy : pyIndex ptx.vout txin.prevout.n = Except.ok u := by
      unfold pyIndex
      rw [hg]
    have hpy2 : pyIndex kp 2 = Except.ok b := by
      unfold pyIndex
      rw [hkp]
    unfold processInputRest
    simp only [h1]
    rw [if_neg (show ¬(txin.prevout.hash ≠ ptx.sha256) by simp [hh])]
    simp only [hpy, hfind]
    rw [if_neg hpk]
    simp only [hpy2]
    rw [if_pos (Ne.symm hb)]

theorem claim_C6_witness :
    processInput 5 0 (some 7) exPsbtIn exTxIn
      = Except.error SignError.badArgMixedAccounts :=
  claim_C6.2 5 0 7 exPsbtIn exTxIn exPrevTx exUtxo [2, 3]
    [84 + HARDENED, 0 + HARDENED, 0 + HARDENED, 0, 0] (0 + HARDENED)
    rfl rfl rfl rfl rfl (by decide) rfl (by decide)

/-- C9: sign_tx raises the bad-argument sighash condition for every input
whose sighash value is neither unset (0) nor SIGHASH_ALL (1), and when any
such input is present no signing request is produced; an input whose
sighash is absent/zero (or 1) passes the gate, and no later step can raise
the sighash condition. -/
theorem claim_C9 :
    (∀ mfp idx acc pin txin, pin.sighash ≠ 0 → pin.sighash ≠ 1 →
      processInput mfp idx acc pin txin
        = Except.error (SignError.badArgSighash idx pin.sighash))
    ∧ (∀ cfg psbt i pin txin req,
        (psbt.inputs.zip psbt.tx.vin).get? i = some (pin, txin) →
        pin.sighash ≠ 0 → pin.sighash ≠ 1 →
        signTx cfg psbt ≠ Except.ok req)
    ∧ (∀ mfp idx acc pin txin, pin.sighash = 0 ∨ pin.sighash = 1 →
        processInput mfp idx acc pin txin
          = processInputRest mfp idx acc pin txin)
    ∧ (∀ mfp idx acc pin txin j s,
        processInputRest mfp idx acc pin txin
          ≠ Except.error (SignError.badArgSighash j s)) := by
  have hgate : ∀ (mfp idx : Nat) (acc : Option Nat) (pin : PSBTInput)
      (txin : CTxIn), pin.sighash ≠ 0 → pin.sighash ≠ 1 →
      processInput mfp idx acc pin txin
        = Except.error (SignError.badArgSighash idx pin.sighash) := by
    intro mfp idx acc pin txin h0 h1
    unfold processInput
    rw [if_pos ⟨h0, h1⟩]
  refine ⟨hgate, ?_, ?_, ?_⟩
  · intro cfg psbt i pin txin req hget h0 h1 hok
    unfold signTx at hok
    cases hin : processInputs cfg.master_fp 0 none (psbt.inputs.zip psbt.tx.vin) with
    | error e =>
      simp only [hin] at hok
      exact absurd hok (by simp)
    | ok v =>
      obtain ⟨j, a, r, hr⟩ :=
        processInputs_ok_mem _ _ _ _ _ hin pin txin (List.get?_mem hget)
      exact absurd hr (by rw [hgate cfg.master_fp j a pin txin h0 h1]; simp)
  · intro mfp idx acc pin txin hs
    exact processInput_sighash_pass hs
  · intro mfp idx acc pin txin j s
    exact processInputRest_no_sighash mfp idx acc pin txin j s

theorem claim_C9_witness :
    processInput 5 0 none exPsbtInSighash3 exTxIn
      = Except.error (SignError.badArgSighash 0 3) :=
  claim_C9.1 5 0 none exPsbtInSighash3 exTxIn (by decide) (by decide)

/-- C10: sign_tx never validates the length of a matched association's
path: an input whose matched path (after the fingerprint) has fewer than 3
elements fails with the raw index error when the account component at index
2 is read, and an output whose matched path has exactly 1 element fails
with the raw index error when the change flag at index -2 is read — in both
cases an index error, not a validation error. -/
theorem claim_C10 :
    (∀ mfp idx acc pin txin ptx u pk kp,
        pin.sighash = 0 →
        pin.non_witness_utxo = some ptx →
        txin.prevout.hash = ptx.sha256 →
        ptx.vout.get? txin.prevout.n = some u →
        findOurKey mfp pin.hd_keypaths = Except.ok (some (pk, kp)) →
        pk ≠ [] → kp.length < 3 →
        processInput mfp idx acc pin txin = Except.error SignError.indexError)
    ∧ (∀ mfp sidx oidx pout txout pk kp x,
        findOurKey mfp pout.hd_keypaths = Except.ok (some (pk, kp)) →
        kp = [x] →
        processOutput mfp sidx oidx pout txout
          = Except.error SignError.indexError) := by
  constructor
  · intro mfp idx acc pin txin ptx u pk kp hs0 h1 hh hg hfind hpk hlen
    rw [processInput_sighash_pass (Or.inl hs0)]
    have hpy : pyIndex ptx.vout txin.prevout.n = Except.ok u := by
      unfold pyIndex
      rw [hg]
    have hpy2 : pyIndex kp 2 = Except.error SignError.indexError := by
      unfold pyIndex
      rw [List.get?_eq_none.mpr (by omega)]
    unfold processInputRest
    simp only [h1]
    rw [if_neg (show ¬(txin.prevout.hash ≠ ptx.sha256) by simp [hh])]
    simp only [hpy, hfind]
    rw [if_neg hpk]
    cases acc with
    | none => simp only [hpy2]
    | some a0 => simp only [hpy2]
  · intro mfp sidx oidx pout txout pk kp x hfind hkp
    subst hkp
    unfold processOutput
    simp only [hfind]
    rw [if_neg (by simp), if_pos (by simp)]

theorem claim_C10_witness :
    processInput 5 0 none exPsbtInShortPath exTxIn
        = Except.error SignError.indexError
    ∧ processOutput 5 0 0 exPsbtOutShortPath exTxOut
        = Except.error SignError.indexError :=
  ⟨claim_C10.1 5 0 none exPsbtInShortPath exTxIn exPrevTx exUtxo [2] [10, 11]
      rfl rfl rfl rfl rfl (by decide) (by decide),
    claim_C10.2 5 0 0 exPsbtOutShortPath exTxOut [2] [1] 1 rfl rfl⟩

/-- C7: for every balanced sequence of begin_session/end_session calls the
depth counter never goes negative; begin_session increments the counter and
invokes the physical open exactly on the 0 to 1 transition, end_session
decrements it and invokes the physical close exactly on the 1 to 0
transition; and the sequence begin;begin;end;end invokes the physical open
exactly once and then the physical close exactly once, in that order. -/
theorem claim_C7 :
    (∀ l : List SessCall, balancedB l = true → ∀ k : Nat,
        0 ≤ (runCalls initSessState (l.take k)).session_counter)
    ∧ (∀ s : SessState,
        (beginSession s).session_counter = s.session_counter + 1 ∧
        (beginSession s).trace =
          (if s.session_counter = 0 then s.trace ++ [PhysEv.opened] else s.trace) ∧
        (endSession s).session_counter = s.session_counter - 1 ∧
        (endSession s).trace =
          (if s.session_counter = 1 then s.trace ++ [PhysEv.closed] else s.trace))
    ∧ runCalls initSessState
        [SessCall.beginS, SessCall.beginS, SessCall.endS, SessCall.endS]
        = { session_counter := 0, trace := [PhysEv.opened, PhysEv.closed] } := by
  refine ⟨?_, ?_, by rfl⟩
  · intro l hl k
    have h1 := runCalls_counter (l.take k) initSessState
    have h2 := balancedB_prefix hl k
    rw [h1]
    simp [initSessState]
    omega
  · intro s
    exact ⟨rfl, rfl, rfl, rfl⟩

theorem claim_C7_witness :
    balancedB [SessCall.beginS, SessCall.beginS, SessCall.endS, SessCall.endS] = true
    ∧ 0 ≤ (runCalls initSessState
        ([SessCall.beginS, SessCall.beginS, SessCall.endS, SessCall.endS].take 3)).session_counter :=
  ⟨by decide, claim_C7.1 _ (by decide) 3⟩

/-- C8: on mainnet, public-key export for path [84',0',0'] is accepted and
classified as native-segwit singlesig, account 99' is accepted, while
[84',1',0'] (wrong coin type) and account 100' are rejected, each rejection
surfacing as a keypath error. -/
theorem claim_C8 :
    getPubkeyAtPath false [84 + HARDENED, 0 + HARDENED, 0 + HARDENED]
        = Except.ok (XpubClass.singlesig PURPOSE_P2WPKH, XpubType.xpub)
    ∧ getPubkeyAtPath false [84 + HARDENED, 0 + HARDENED, 99 + HARDENED]
        = Except.ok (XpubClass.singlesig PURPOSE_P2WPKH, XpubType.xpub)
    ∧ getPubkeyAtPath false [84 + HARDENED, 1 + HARDENED, 0 + HARDENED]
        = Except.error PubkeyErr.keypathError
    ∧ getPubkeyAtPath false [84 + HARDENED, 0 + HARDENED, 100 + HARDENED]
        = Except.error PubkeyErr.keypathError := by
  exact ⟨rfl, rfl, rfl, rfl⟩

/-- C1 counterexample: an input carrying only a spent-output record
(witness_utxo) and no full previous transaction does not proceed — sign_tx
fails with the missing-previous-transaction condition, because the BitBox02
requires the full previous transaction for every input. -/
theorem claim_C1_counterexample :
    signTx exCfg exPsbtWitOnly = Except.error (SignError.badArgPrevTxMissing 0) := rfl

/-- C1 amended: for each PSBT input (with an acceptable sighash), if
non_witness_utxo is present the code verifies its hash against the input's
claimed previous-output reference (failing with the wrong-hash condition on
mismatch) and takes the referenced output from it; if only witness_utxo is
present the spent output is taken from it but the operation still fails
with the missing-previous-transaction condition; the missing-previous-output
condition is raised exactly when neither is available. -/
theorem claim_C1_amended (master_fp input_index : Nat) (acc : Option Nat)
    (psbt_in : PSBTInput) (tx_in : CTxIn)
    (hs : psbt_in.sighash = 0 ∨ psbt_in.sighash = 1) :
    (psbt_in.non_witness_utxo = none → psbt_in.witness_utxo = none →
      processInput master_fp input_index acc psbt_in tx_in
        = Except.error (SignError.badArgNoUtxo input_index))
    ∧ (∀ u, psbt_in.non_witness_utxo = none → psbt_in.witness_utxo = some u →
      processInput master_fp input_index acc psbt_in tx_in
        = Except.error (SignError.badArgPrevTxMissing input_index))
    ∧ (∀ ptx, psbt_in.non_witness_utxo = some ptx →
        tx_in.prevout.hash ≠ ptx.sha256 →
      processInput master_fp input_index acc psbt_in tx_in
        = Except.error (SignError.badArgWrongHash input_index))
    ∧ (∀ ptx u r, psbt_in.non_witness_utxo = some ptx →
        tx_in.prevout.hash = ptx.sha256 →
        ptx.vout.get? tx_in.prevout.n = some u →
        processInput master_fp input_index acc psbt_in tx_in = Except.ok r →
        r.2.2.prev_out_value = u.nValue
          ∧ r.2.2.prev_tx.version = ptx.nVersion
          ∧ r.2.2.prev_tx.locktime = ptx.nLockTime
          ∧ r.2.2.prev_tx.outputs = ptx.vout.map
              (fun o => { value := o.nValue, pubkey_script := o.scriptPubKey })) := by
  refine ⟨?_, ?_, ?_, ?_⟩
  · intro h1 h2
    rw [processInput_sighash_pass hs]
    simp only [processInputRest, h1, h2]
  · intro u h1 h2
    rw [processInput_sighash_pass hs]
    simp only [processInputRest, h1, h2]
  · intro ptx h1 hne
    rw [processInput_sighash_pass hs]
    simp only [processInputRest, h1, if_pos hne]
  · intro ptx u r h1 hh hg hok
    rw [processInput_sighash_pass hs] at hok
    have hpy : pyIndex ptx.vout tx_in.prevout.n = Except.ok u := by
      unfold pyIndex
      rw [hg]
    unfold processInputRest at hok
    simp only [h1] at hok
    rw [if_neg (show ¬(tx_in.prevout.hash ≠ ptx.sha256) by simp [hh])] at hok
    simp only [hpy] at hok
    cases hfind : findOurKey master_fp psbt_in.hd_keypaths with
    | error e =>
      simp only [hfind] at hok
      exact absurd hok (by simp)
    | ok found =>
      cases found with
      | none =>
        simp only [hfind] at hok
        exact absurd hok (by simp)
      | some pkkp =>
        obtain ⟨pk, kp⟩ := pkkp
        simp only [hfind] at hok
        by_cases hpk : pk = []
        · rw [if_pos hpk] at hok
          exact absurd hok (by simp)
        · rw [if_neg hpk] at hok
          cases hacc : (match acc with
              | none => pyIndex kp 2
              | some a =>
                match pyIndex kp 2 with
                | Except.error e => Except.error e
                | Except.ok k2 =>
                  if a ≠ k2 then Except.error SignError.badArgMixedAccounts
                  else Except.ok a) with
          | error e =>
            simp only [hacc] at hok
            exact absurd hok (by simp)
          | ok newAcc =>
            simp only [hacc] at hok
            cases hst : getSimpleType input_index u psbt_in.redeem_script with
            | error e =>
              simp only [hst] at hok
              exact absurd hok (by simp)
            | ok st =>
              simp only [hst] at hok
              have hr := (Except.ok.inj hok).symm
              subst hr
              exact ⟨rfl, rfl, rfl, rfl⟩

/-- C2 counterexample: a transaction whose inputs are all native-segwit
still yields a request with two script-type descriptors, not one — the code
unconditionally sends both the P2WPKH and the P2WPKH-P2SH descriptor. -/
theorem claim_C2_counterexample :
    (signTx exCfg exPsbt).map (fun r => r.script_configs.length) = Except.ok 2
    ∧ (signTx exCfg exPsbt).map (fun r => r.script_configs.length) ≠ Except.ok 1 := by
  refine ⟨rfl, ?_⟩
  intro h
  rw [show (signTx exCfg exPsbt).map (fun r => r.script_configs.length)
      = Except.ok 2 from rfl] at h
  exact absurd (Except.ok.inj h) (by decide)

theorem claim_C1_witness :
    processInput 5 0 none exPsbtInWitOnly exTxIn
      = Except.error (SignError.badArgPrevTxMissing 0) :=
  (claim_C1_amended 5 0 none exPsbtInWitOnly exTxIn (Or.inl rfl)).2.1 exUtxo rfl rfl

/-- C2 amended: every request sign_tx builds carries exactly two script-type
descriptors — one P2WPKH and one P2WPKH-P2SH, hardcoded independently of
which script types the inputs use — each with its canonical account-level
path [purpose', network', account']. -/
theorem claim_C2_amended (cfg : BBConfig) (psbt : PSBT) (req : SignRequest)
    (h : signTx cfg psbt = Except.ok req) :
    req.script_configs.length = 2
    ∧ ∃ account,
        req.script_configs =
          [ { simple_type := SimpleType.p2wpkh
              keypath := [84 + HARDENED,
                (if cfg.is_testnet then 1 + HARDENED else 0 + HARDENED), account] }
          , { simple_type := SimpleType.p2wpkhP2sh
              keypath := [49 + HARDENED,
                (if cfg.is_testnet then 1 + HARDENED else 0 + HARDENED), account] } ] := by
  unfold signTx at h
  cases hin : processInputs cfg.master_fp 0 none (psbt.inputs.zip psbt.tx.vin) with
  | error e =>
    simp only [hin] at h
    exact absurd h (by simp)
  | ok v =>
    obtain ⟨accOpt, pks, inRecs⟩ := v
    simp only [hin] at h
    cases hout : processOutputs cfg.master_fp ((psbt.inputs.zip psbt.tx.vin).length - 1)
        0 (psbt.outputs.zip psbt.tx.vout) with
    | error e =>
      simp only [hout] at h
      exact absurd h (by simp)
    | ok outRecs =>
      simp only [hout] at h
      cases accOpt with
      | none => simp at h
      | some account =>
        simp only [Except.ok.injEq] at h
        rw [← h]
        exact ⟨rfl, ⟨account, rfl⟩⟩

theorem claim_C2_witness :
    exReqC2.script_configs.length = 2 :=
  (claim_C2_amended exCfg exPsbt exReqC2 (by rfl)).1

/-- C3 counterexample: a 56-byte payload is written as 2 blocks, while the
spec's stated first-block capacity of N-3 = 61 bytes predicts a single
block — the actual first-block payload capacity is N-9 (one report marker,
two magic bytes, six header bytes). -/
theorem claim_C3_counterexample :
    (protWrite 0 (List.replicate 56 0)).length = 2
    ∧ specPredictedBlockCount 56 = 1
    ∧ (2 : Nat) ≠ 1 := by
  exact ⟨rfl, rfl, by decide⟩

/-- C3 amended: for a payload of L bytes, ProtocolV1.write produces
ceil((L+8)/(N-1)) = (L+70)/63 blocks — the first block carries the report
marker, two magic bytes and the 6-byte header, so its payload capacity is
N-9 = 55 and each continuation block's capacity is N-1 = 63 — every block
has exactly N = 64 bytes, and the final block is the remaining frame bytes
zero-padded to N. -/
theorem claim_C3_amended (msgType : Nat) (payload : List Nat) :
    (protWrite msgType payload).length = (payload.length + 70) / 63
    ∧ (∀ c ∈ protWrite msgType payload, c.length = 64)
    ∧ (protWrite msgType payload).getLastD [] =
        (repMark :: (v1Frame msgType payload).drop
            (63 * ((payload.length + 70) / 63 - 1)))
          ++ List.replicate
              (63 - ((payload.length + 8)
                - 63 * ((payload.length + 70) / 63 - 1))) 0 := by
  have hfl := v1Frame_length msgType payload
  refine ⟨?_, ?_, ?_⟩
  · rw [protWrite, chunkify_length, hfl]
  · intro c hc
    exact chunkify_chunk_len (v1Frame msgType payload).length _ (Nat.le_refl _) c hc
  · have hne : v1Frame msgType payload ≠ [] := by
      intro h
      have := congrArg List.length h
      rw [hfl] at this
      simp at this
    rw [protWrite,
      chunkify_getLastD_aux (v1Frame msgType payload).length _ (Nat.le_refl _) hne,
      hfl]

theorem claim_C3_witness :
    ((protWrite 2 (List.replicate 100 1)).headD []).length = 64 :=
  (claim_C3_amended 2 (List.replicate 100 1)).2.1 _ (by decide)

/-- C4: for every 16-bit message type tag and every payload whose length
fits the 32-bit length field (in particular every payload from 0 bytes up
to several multiples of the report size), encoding via ProtocolV1.write and
decoding the chunk sequence via ProtocolV1.read (read_first, then read_next
until the declared length is reached, trailing pad bytes discarded)
reproduces the original type tag and payload bytes exactly. -/
theorem claim_C4 (t : Nat) (p : List Nat) (ht : t < 65536)
    (hp : p.length < 4294967296) :
    readMsg (protWrite t p) = some (t, p) := by
  have h1 : chunkify (v1Frame t p)
      = pad64 (repMark :: (v1Frame t p).take 63)
        :: chunkify ((v1Frame t p).drop 63) := by
    show chunkify (hdrMark :: hdrMark :: (be16 t ++ be32 p.length ++ p)) = _
    exact chunkify_cons _ _
  rw [protWrite, h1]
  simp only [readMsg, readFirst_write t p ht hp]
  rw [v1Frame_drop63, readLoop_chunkify p.length 55 p (by omega) (by omega)]
  rfl

theorem claim_C4_witness :
    readMsg (protWrite 77 (List.replicate 130 9)) = some (77, List.replicate 130 9) :=
  claim_C4 77 (List.replicate 130 9) (by decide) (by simp)

/-- C5 amended: an output is classified internal/change (sent as keypath,
value and script-config index, no raw script) precisely when a key
association matches the master fingerprint and its path's second-to-last
element equals 1; no account comparison with the inputs' account is made.
Any other recognized output is described externally by type, script hash
and value, and an unrecognized shape fails the operation. -/
theorem claim_C5_amended (mfp sidx oidx : Nat) (pout : PSBTOutput) (txout : CTxOut) :
    (findOurKey mfp pout.hd_keypaths = Except.ok none →
      processOutput mfp sidx oidx pout txout = externalOutput oidx txout)
    ∧ (∀ pk kp, findOurKey mfp pout.hd_keypaths = Except.ok (some (pk, kp)) →
        2 ≤ kp.length → kp.getD (kp.length - 2) 0 = 1 →
        processOutput mfp sidx oidx pout txout
          = match getSimpleType sidx txout pout.redeem_script with
            | Except.error e => Except.error e
            | Except.ok st =>
              Except.ok (OutputRecord.internal kp txout.nValue (scriptConfigIndex st)))
    ∧ (∀ pk kp, findOurKey mfp pout.hd_keypaths = Except.ok (some (pk, kp)) →
        2 ≤ kp.length → kp.getD (kp.length - 2) 0 ≠ 1 →
        processOutput mfp sidx oidx pout txout = externalOutput oidx txout)
    ∧ (is_p2pkh txout.scriptPubKey = true →
        externalOutput oidx txout = Except.ok (OutputRecord.externalP2pkh
          ((txout.scriptPubKey.drop 3).take 20) txout.nValue))
    ∧ (is_p2wpkh txout.scriptPubKey = true →
        externalOutput oidx txout = Except.ok (OutputRecord.externalP2wpkh
          (txout.scriptPubKey.drop 2) txout.nValue))
    ∧ (is_p2sh txout.scriptPubKey = true →
        externalOutput oidx txout = Except.ok (OutputRecord.externalP2sh
          ((txout.scriptPubKey.drop 2).take 20) txout.nValue))
    ∧ (is_p2wsh txout.scriptPubKey = true →
        externalOutput oidx txout = Except.ok (OutputRecord.externalP2wsh
          (txout.scriptPubKey.drop 2) txout.nValue))
    ∧ (is_p2pkh txout.scriptPubKey = false → is_p2wpkh txout.scriptPubKey = false →
        is_p2sh txout.scriptPubKey = false → is_p2wsh txout.scriptPubKey = false →
        externalOutput oidx txout
          = Except.error (SignError.badArgOutputUnrecognized oidx)) := by
  refine ⟨?_, ?_, ?_, ?_, ?_, ?_, ?_, ?_⟩
  · intro hfind
    unfold processOutput
    simp only [hfind]
  · intro pk kp hfind hlen hflag
    have hne : kp ≠ [] := by
      intro hnil
      rw [hnil] at hlen
      simp at hlen
    unfold processOutput
    simp only [hfind]
    rw [if_neg hne, if_neg (by omega), if_pos hflag]
  · intro pk kp hfind hlen hflag
    have hne : kp ≠ [] := by
      intro hnil
      rw [hnil] at hlen
      simp at hlen
    unfold processOutput
    simp only [hfind]
    rw [if_neg hne, if_neg (by omega), if_neg hflag]
  · intro h
    unfold externalOutput
    rw [if_pos h]
  · intro h
    have h1 : is_p2pkh txout.scriptPubKey = false := by
      have hl := is_p2wpkh_length h
      simp [is_p2pkh, hl]
    simp [externalOutput, h1, h]
  · intro h
    have h1 : is_p2pkh txout.scriptPubKey = false := by
      have hl := is_p2sh_length h
      simp [is_p2pkh, hl]
    have h2 : is_p2wpkh txout.scriptPubKey = false := by
      have hl := is_p2sh_length h
      simp [is_p2wpkh, hl]
    simp [externalOutput, h1, h2, h]
  · intro h
    have h1 : is_p2pkh txout.scriptPubKey = false := by
      have hl := is_p2wsh_length h
      simp [is_p2pkh, hl]
    have h2 : is_p2wpkh txout.scriptPubKey = false := by
      have hl := is_p2wsh_length h
      simp [is_p2wpkh, hl]
    have h3 : is_p2sh txout.scriptPubKey = false := by
      have hl := is_p2wsh_length h
      simp [is_p2sh, hl]
    simp [externalOutput, h1, h2, h3, h]
  · intro h1 h2 h3 h4
    simp [externalOutput, h1, h2, h3, h4]

theorem claim_C5_witness :
    processOutput 5 0 0 exPsbtOutOtherAccount exTxOut
      = match getSimpleType 0 exTxOut exPsbtOutOtherAccount.redeem_script with
        | Except.error e => Except.error e
        | Except.ok st => Except.ok (OutputRecord.internal
            [84 + HARDENED, 0 + HARDENED, 5 + HARDENED, 1, 0]
            exTxOut.nValue (scriptConfigIndex st)) :=
  (claim_C5_amended 5 0 0 exPsbtOutOtherAccount exTxOut).2.1 [9]
    [84 + HARDENED, 0 + HARDENED, 5 + HARDENED, 1, 0] rfl (by decide) (by decide)

/-- C5 counterexample: an output whose matching key association has change
flag 1 but account 5', with all inputs at account 0', is still classified
as an internal/change output — the account-membership condition is not
checked for outputs. -/
theorem claim_C5_counterexample :
    (signTx exCfg exPsbtChangeOtherAccount).map (fun r => r.outputs)
      = Except.ok [OutputRecord.internal
          [84 + HARDENED, 0 + HARDENED, 5 + HARDENED, 1, 0] 4000 0]
    ∧ (signTx exCfg exPsbtChangeOtherAccount).map
        (fun r => r.inputs.map (fun i => i.keypath.getD 2 0))
      = Except.ok [0 + HARDENED]
    ∧ (5 + HARDENED : Nat) ≠ 0 + HARDENED := by
  exact ⟨rfl, rfl, by decide⟩

end HWI
